import Mathlib

/-
Verification development for the stocks-monitoring repository
(src/src/etl_scripts/procedures.py).

The repository has two functions operating on pandas DataFrames:

* fetch_daily_stock_articles: queries a news-search backend, then for each
  returned result downloads and parses the linked article, recording the
  extracted body text and first image, or an error-placeholder string in
  both fields when the download or parse fails; finally it attaches the
  ticker as a constant entity column.

* cleaning_fetched_articles: filters out the failure rows, normalizes the
  full_text column, renames the published-date column, extracts the
  publisher display name, parses the timestamp, derives the calendar date,
  and projects onto a fixed column list.

A DataFrame is embedded as a list of column names together with a list of
rows, a row being an ordered association list from column names to cell
values; pandas column-assignment semantics (replace in place when the
column exists, append at the end otherwise), column access raising KeyError
when the column is absent, and length-checked whole-column assignment are
modelled explicitly, with Option standing for Python exceptions. The two
external services (the search client and the article downloader and parser)
and the pandas timestamp parser are oracles passed as function arguments.
-/

namespace StocksMonitoring

/-- The publisher object attached to a search result: a display name
(under key title) and a homepage link (under key href). -/
structure Publisher where
  title : List Char
  href : List Char
deriving DecidableEq, Repr

/-- A calendar date, the value extracted by the pandas dt.date accessor. -/
structure Date where
  year : Int
  month : Nat
  day : Nat
deriving DecidableEq, Repr

/-- A parsed timestamp, as produced by pandas to_datetime: a calendar date
together with the second-of-day component. -/
structure Timestamp where
  date : Date
  secondOfDay : Nat
deriving DecidableEq, Repr

/-- A cell value of a DataFrame. vNone models Python None and NaN. -/
inductive Value where
  | vStr : List Char → Value
  | vPub : Publisher → Value
  | vTime : Timestamp → Value
  | vDate : Date → Value
  | vNone : Value
deriving DecidableEq, Repr

/-- A row: an ordered association list from column names to cell values,
mirroring the left-to-right column order of a pandas row. -/
abbrev Row := List (String × Value)

/-- A DataFrame: its column list plus its rows. pandas keeps the column
index even when every row has been filtered away, so the columns travel
separately from the rows. -/
structure DFrame where
  cols : List String
  rows : List Row
deriving DecidableEq, Repr

/-- Look a column name up in a row (first entry wins, as in an index). -/
def getVal : Row → String → Option Value
  | [], _ => none
  | (c', v) :: rest, c => if c' = c then some v else getVal rest c

/-- Write a cell: replace in place when the column exists in the row,
append at the end otherwise — pandas column-assignment semantics. -/
def setVal : Row → String → Value → Row
  | [], c, v => [(c, v)]
  | (c', v') :: rest, c, v =>
      if c' = c then (c, v) :: rest else (c', v') :: setVal rest c v

/-- Rename one column key inside a row, keeping its position. -/
def renameCol (old new : String) (r : Row) : Row :=
  r.map (fun p => (if p.1 = old then new else p.1, p.2))

/-- Option-valued mapM over lists, written out so that proofs can proceed
by plain structural induction. A none from the element function models a
raised exception aborting the whole pandas operation. -/
def mapO (f : α → Option β) : List α → Option (List β)
  | [] => some []
  | a :: as => do
      let b ← f a
      let bs ← mapO f as
      pure (b :: bs)

/-- pd.DataFrame applied to a list of records: the column index is the key
list of the first record (the search backend emits uniform keys), and an
empty record list yields a DataFrame with no columns at all. -/
def DFrame.ofRecords : List Row → DFrame
  | [] => ⟨[], []⟩
  | r :: rest => ⟨r.map (fun p => p.1), r :: rest⟩

/-- Column read df[c]: raises KeyError (none) when c is not a column;
otherwise the list of that column's cells, one per row. -/
def getCol (df : DFrame) (c : String) : Option (List Value) :=
  if c ∈ df.cols then mapO (fun r => getVal r c) df.rows else none

/-- Whole-column assignment df[c] = vs with a list: pandas requires the
length to match the row count; the column is updated in place or appended. -/
def setCol (df : DFrame) (c : String) (vs : List Value) : Option DFrame :=
  if vs.length = df.rows.length then
    some ⟨if c ∈ df.cols then df.cols else df.cols ++ [c],
          List.zipWith (fun r v => setVal r c v) df.rows vs⟩
  else none

/-- Broadcast scalar assignment df[c] = v: every row receives v. -/
def setColConst (df : DFrame) (c : String) (v : Value) : DFrame :=
  ⟨if c ∈ df.cols then df.cols else df.cols ++ [c],
   df.rows.map (fun r => setVal r c v)⟩

/-- Boolean-mask row selection df[mask]: keep the rows whose mask entry is
true; the column index is untouched. -/
def maskFilter (df : DFrame) (mask : List Bool) : DFrame :=
  ⟨df.cols, ((df.rows.zip mask).filter (fun p => p.2)).map (fun p => p.1)⟩

/-- df.rename over the column axis. -/
def renameDF (df : DFrame) (old new : String) : DFrame :=
  ⟨df.cols.map (fun c => if c = old then new else c),
   df.rows.map (renameCol old new)⟩

/-- Project one row onto a column list, in that order; none models the
KeyError raised when a requested column is missing. -/
def selRow (cols : List String) (r : Row) : Option Row :=
  mapO (fun c => (getVal r c).map (fun v => (c, v))) cols

/-- Column projection df[[cols]]: every requested column must exist. -/
def selectCols (df : DFrame) (cols : List String) : Option DFrame :=
  if cols.all (fun c => decide (c ∈ df.cols)) then
    (mapO (selRow cols) df.rows).map (fun rs => ⟨cols, rs⟩)
  else none

/-- The literal failure-marker substring tested by the Cleaner's filter. -/
def failureMarker : List Char :=
  "Error when downloading and parsing article".data

/-- The placeholder string the Fetcher records on a failed download/parse,
built exactly as the f-string on lines 56-59 of procedures.py. -/
def errMsg (url e : List Char) : List Char :=
  "Error when downloading and parsing article from ".data ++ url
    ++ ": ".data ++ e

/-- Replace every occurrence of the character c by the string rep; this is
Series.replace with a single-character regex pattern. -/
def replaceChar (c : Char) (rep : List Char) : List Char → List Char
  | [] => []
  | a :: as => (if a = c then rep else [a]) ++ replaceChar c rep as

/-- Series.replace with regex=True rewrites string cells and leaves
non-string cells untouched. -/
def replaceStrVal (c : Char) (rep : List Char) : Value → Value
  | Value.vStr s => Value.vStr (replaceChar c rep s)
  | v => v

/-- Series.str.contains with the failure marker: a Bool for string cells;
a non-string cell yields NaN, which poisons the boolean mask and raises
when used for row selection — modelled as none. -/
def strContainsMarker : Value → Option Bool
  | Value.vStr s => some (decide (failureMarker <:+: s))
  | _ => none

/-- The lambda of line 97, x applied to key title: succeeds only when the
cell is an actual publisher mapping; a missing publisher (None/NaN) or a
non-mapping cell raises. -/
def pubTitleVal : Value → Option Value
  | Value.vPub p => some (Value.vStr p.title)
  | _ => none

/-- pd.to_datetime on one cell: parses a string through the oracle
(raising when the oracle cannot parse it), is the identity on an already
parsed timestamp, and raises on anything else. -/
def toDatetimeVal (parse : List Char → Option Timestamp) : Value → Option Value
  | Value.vStr s => (parse s).map (fun t => Value.vTime t)
  | Value.vTime t => some (Value.vTime t)
  | _ => none

/-- The dt.date accessor on one cell: defined only on parsed timestamps. -/
def dateOfVal : Value → Option Value
  | Value.vTime t => some (Value.vDate t.date)
  | _ => none

/-- Per-result body of the Fetcher's loop (lines 41-59): on a successful
download and parse record the body text and the first discovered image (or
None when there is none); on any failure record the placeholder string in
both fields. The download/parse backend is the fetchA oracle, returning
either an error detail or the pair of body text and image list. -/
def processUrl (fetchA : List Char → Except (List Char) (List Char × List (List Char)))
    (url : List Char) : Value × Value :=
  match fetchA url with
  | Except.ok (text, images) =>
      (Value.vStr text,
       match images with
       | [] => Value.vNone
       | i :: _ => Value.vStr i)
  | Except.error e => (Value.vStr (errMsg url e), Value.vStr (errMsg url e))

/-- Extraction of a url cell as a string: iterating df[url] hands each
cell to the Article constructor on line 41, which sits outside the try
block, so a non-string cell propagates as an exception. -/
def strUrl : Value → Option (List Char)
  | Value.vStr u => some u
  | _ => none

/-- fetch_daily_stock_articles (lines 11-71), with the search backend's
result list and the download/parse backend passed as oracles; the fixed
blocking sleep has no observable effect on the returned table and is not
modelled. Iterating df[url] requires the url column to exist (KeyError
otherwise) and each url cell to be a string (the Article constructor on
line 41 sits outside the try block, so a bad cell propagates). -/
def fetch_daily_stock_articles
    (fetchA : List Char → Except (List Char) (List Char × List (List Char)))
    (stock_code : List Char) (news_items : List Row) : Option DFrame :=
  let df := DFrame.ofRecords news_items
  match getCol df "url" with
  | none => none
  | some urlVals =>
  match mapO strUrl urlVals with
  | none => none
  | some urls =>
  let results := urls.map (processUrl fetchA)
  match setCol df "full_text" (results.map (fun p => p.1)) with
  | none => none
  | some df1 =>
  match setCol df1 "image_url" (results.map (fun p => p.2)) with
  | none => none
  | some df2 =>
  some (setColConst df2 "entity" (Value.vStr stock_code))

/-- The two-character replacement written for line-feed and carriage
return characters on lines 91-92. -/
def pipePipe : List Char := "||".data

/-- The fixed output column list of line 103. -/
def finalCols : List String :=
  ["entity", "source_publisher", "title", "full_text", "url",
   "published_time", "published_date", "image_url"]

/-- cleaning_fetched_articles (lines 74-105), stage by stage in source
order: filter the failure rows (88), the three full_text rewrites (91-93),
the column rename (96), the publisher-name extraction (97), the timestamp
parse (99), the date derivation (100), and the final projection (103).
The pandas timestamp parser is the parse oracle; none models an exception
aborting the whole call and propagating to the caller. -/
def cleaning_fetched_articles (parse : List Char → Option Timestamp)
    (df : DFrame) : Option DFrame :=
  match getCol df "full_text" with
  | none => none
  | some fts =>
  match mapO strContainsMarker fts with
  | none => none
  | some mask =>
  let d1 := maskFilter df (mask.map (fun b => !b))
  match getCol d1 "full_text" with
  | none => none
  | some t1 =>
  match setCol d1 "full_text" (t1.map (replaceStrVal '\n' pipePipe)) with
  | none => none
  | some d2 =>
  match getCol d2 "full_text" with
  | none => none
  | some t2 =>
  match setCol d2 "full_text" (t2.map (replaceStrVal '\r' pipePipe)) with
  | none => none
  | some d3 =>
  match getCol d3 "full_text" with
  | none => none
  | some t3 =>
  match setCol d3 "full_text" (t3.map (replaceStrVal '\\' [])) with
  | none => none
  | some d4 =>
  let d5 := renameDF d4 "published date" "published_time"
  match getCol d5 "publisher" with
  | none => none
  | some pubs =>
  match mapO pubTitleVal pubs with
  | none => none
  | some titles =>
  match setCol d5 "source_publisher" titles with
  | none => none
  | some d6 =>
  match getCol d6 "published_time" with
  | none => none
  | some pts =>
  match mapO (toDatetimeVal parse) pts with
  | none => none
  | some pts2 =>
  match setCol d6 "published_time" pts2 with
  | none => none
  | some d7 =>
  match getCol d7 "published_time" with
  | none => none
  | some pts3 =>
  match mapO dateOfVal pts3 with
  | none => none
  | some dts =>
  match setCol d7 "published_date" dts with
  | none => none
  | some d8 =>
  selectCols d8 finalCols

/-! Derived per-row forms of the Cleaner, used to state and prove the
row-level properties; the correspondence with the column-wise pipeline is
proved below. -/

/-- Whether a row survives the failure filter of line 88: its full_text
cell is a string not containing the failure marker. -/
def keepB (r : Row) : Bool :=
  match getVal r "full_text" with
  | some (Value.vStr s) => !(decide (failureMarker <:+: s))
  | _ => false

/-- Whether a row's full_text is a string containing the failure marker. -/
def hasMarkerRow (r : Row) : Bool :=
  match getVal r "full_text" with
  | some (Value.vStr s) => decide (failureMarker <:+: s)
  | _ => false

/-- The composite full_text normalization of lines 91-93 on one string:
replace each line feed by two pipes, then each carriage return by two
pipes, then delete every backslash. -/
def cleanText (s : List Char) : List Char :=
  replaceChar '\\' [] (replaceChar '\r' pipePipe (replaceChar '\n' pipePipe s))

/-- One column-stage restricted to a single row: read column c1, transform
the cell, write the result to column c2. -/
def rowMapCol (c1 c2 : String) (f : Value → Option Value) (r : Row) : Option Row :=
  (getVal r c1).bind fun v => (f v).bind fun w => some (setVal r c2 w)

/-- The whole Cleaner pipeline after the failure filter, restricted to a
single surviving row. -/
def perRowClean (parse : List Char → Option Timestamp) (r : Row) : Option Row :=
  (rowMapCol "full_text" "full_text"
      (fun v => some (replaceStrVal '\n' pipePipe v)) r).bind fun r1 =>
  (rowMapCol "full_text" "full_text"
      (fun v => some (replaceStrVal '\r' pipePipe v)) r1).bind fun r2 =>
  (rowMapCol "full_text" "full_text"
      (fun v => some (replaceStrVal '\\' [] v)) r2).bind fun r3 =>
  (rowMapCol "publisher" "source_publisher" pubTitleVal
      (renameCol "published date" "published_time" r3)).bind fun r5 =>
  (rowMapCol "published_time" "published_time"
      (toDatetimeVal parse) r5).bind fun r6 =>
  (rowMapCol "published_time" "published_date" dateOfVal r6).bind fun r7 =>
  selRow finalCols r7

/-! Concrete inputs used by the witnesses: a small raw table with one good
row and one failed-fetch row, a fixed parse oracle, and a two-result fetch
run with one unreachable url. -/

/-- The publisher of the worked example in the repository's spec. -/
def pubKompas : Publisher := ⟨"Kompas".data, "https://kompas.com".data⟩

/-- A parse oracle accepting every date string, with a fixed timestamp. -/
def parseEx : List Char → Option Timestamp := fun _ => some ⟨⟨2024, 1, 1⟩, 0⟩

/-- Column list of a raw fetched table. -/
def rawColsEx : List String :=
  ["title", "url", "publisher", "published date", "full_text", "image_url",
   "entity"]

/-- A successfully fetched raw row. -/
def rawRowEx : Row :=
  [("title", Value.vStr "t".data),
   ("url", Value.vStr "http://x".data),
   ("publisher", Value.vPub pubKompas),
   ("published date", Value.vStr "Mon, 01 Jan 2024 00:00:00 GMT".data),
   ("full_text", Value.vStr "line1\nline2\r\n".data),
   ("image_url", Value.vStr "img".data),
   ("entity", Value.vStr "BBCA".data)]

/-- A raw row whose fetch failed: full_text and image_url hold the
placeholder string. -/
def rawErrRowEx : Row :=
  [("title", Value.vStr "t2".data),
   ("url", Value.vStr "http://y".data),
   ("publisher", Value.vPub pubKompas),
   ("published date", Value.vStr "Mon, 01 Jan 2024 01:00:00 GMT".data),
   ("full_text", Value.vStr (errMsg "http://y".data "timeout".data)),
   ("image_url", Value.vStr (errMsg "http://y".data "timeout".data)),
   ("entity", Value.vStr "BBCA".data)]

/-- A two-row raw table: one good row, one failed-fetch row. -/
def dfEx : DFrame := ⟨rawColsEx, [rawRowEx, rawErrRowEx]⟩

/-- A raw row whose publisher cell is missing (None). -/
def rowNoPub : Row :=
  [("title", Value.vStr "t".data),
   ("url", Value.vStr "http://x".data),
   ("publisher", Value.vNone),
   ("published date", Value.vStr "Mon, 01 Jan 2024 00:00:00 GMT".data),
   ("full_text", Value.vStr "body".data),
   ("image_url", Value.vStr "img".data),
   ("entity", Value.vStr "BBCA".data)]

/-- A one-row raw table whose single row has no publisher structure. -/
def dfNoPub : DFrame := ⟨rawColsEx, [rowNoPub]⟩

/-- The ticker of the example fetch run. -/
def bbca : List Char := "BBCA".data

/-- The reachable url of the example fetch run. -/
def urlGood : List Char := "http://good".data

/-- The unreachable url of the example fetch run. -/
def urlBad : List Char := "http://bad".data

/-- A download/parse oracle: the good url yields a body and one image,
every other url fails with a timeout detail. -/
def fetchEx : List Char → Except (List Char) (List Char × List (List Char)) :=
  fun u =>
    if u = urlGood then Except.ok ("body".data, ["img1".data])
    else Except.error "timeout".data

/-- First search result of the example fetch run. -/
def itemF0 : Row :=
  [("title", Value.vStr "a".data),
   ("url", Value.vStr urlGood),
   ("publisher", Value.vPub pubKompas),
   ("published date", Value.vStr "d1".data)]

/-- Second search result of the example fetch run; its url is the
unreachable one. -/
def itemF1 : Row :=
  [("title", Value.vStr "b".data),
   ("url", Value.vStr urlBad),
   ("publisher", Value.vPub pubKompas),
   ("published date", Value.vStr "d2".data)]

/-- The example search-result list. -/
def itemsEx : List Row := [itemF0, itemF1]

/-- The cleaned row produced from rawRowEx. -/
def cleanedRowEx : Row :=
  [("entity", Value.vStr "BBCA".data),
   ("source_publisher", Value.vStr "Kompas".data),
   ("title", Value.vStr "t".data),
   ("full_text", Value.vStr "line1||line2||||".data),
   ("url", Value.vStr "http://x".data),
   ("published_time", Value.vTime ⟨⟨2024, 1, 1⟩, 0⟩),
   ("published_date", Value.vDate ⟨2024, 1, 1⟩),
   ("image_url", Value.vStr "img".data)]

/-- The cleaned table produced from dfEx: the failed-fetch row is gone. -/
def outEx : DFrame := ⟨finalCols, [cleanedRowEx]⟩

/-- The fetched row for the reachable url. -/
def fetchRow0Ex : Row :=
  itemF0 ++
    [("full_text", Value.vStr "body".data),
     ("image_url", Value.vStr "img1".data),
     ("entity", Value.vStr bbca)]

/-- The fetched row for the unreachable url: both added text fields hold
the placeholder string. -/
def fetchRow1Ex : Row :=
  itemF1 ++
    [("full_text", Value.vStr (errMsg urlBad "timeout".data)),
     ("image_url", Value.vStr (errMsg urlBad "timeout".data)),
     ("entity", Value.vStr bbca)]

/-- The raw table returned by the example fetch run. -/
def outFEx : DFrame := ⟨rawColsEx, [fetchRow0Ex, fetchRow1Ex]⟩

/-! Lemmas about mapO. -/

theorem mapO_nil (f : α → Option β) : mapO f [] = some [] := rfl

theorem mapO_cons (f : α → Option β) (a : α) (l : List α) :
    mapO f (a :: l) =
      (f a).bind fun b => (mapO f l).bind fun bs => some (b :: bs) := rfl

theorem mapO_cons_some {f : α → Option β} {a : α} {l : List α} {l' : List β}
    (h : mapO f (a :: l) = some l') :
    ∃ b bs, f a = some b ∧ mapO f l = some bs ∧ l' = b :: bs := by
  rw [mapO_cons, Option.bind_eq_some'] at h
  obtain ⟨b, hb, h⟩ := h
  rw [Option.bind_eq_some'] at h
  obtain ⟨bs, hbs, h⟩ := h
  exact ⟨b, bs, hb, hbs, (Option.some_inj.mp h).symm⟩

theorem mapO_cons_of (f : α → Option β) {a : α} {l : List α} {b : β}
    {bs : List β} (ha : f a = some b) (hl : mapO f l = some bs) :
    mapO f (a :: l) = some (b :: bs) := by
  rw [mapO_cons, ha, Option.some_bind', hl, Option.some_bind']

theorem mapO_length {f : α → Option β} :
    ∀ {l : List α} {l' : List β}, mapO f l = some l' → l'.length = l.length := by
  intro l
  induction l with
  | nil => intro l' h; rw [mapO_nil] at h; cases h; rfl
  | cons a l ih =>
    intro l' h
    obtain ⟨b, bs, _, hbs, rfl⟩ := mapO_cons_some h
    simp [ih hbs]

theorem mapO_mem {f : α → Option β} :
    ∀ {l : List α} {l' : List β}, mapO f l = some l' →
      ∀ b ∈ l', ∃ a ∈ l, f a = some b := by
  intro l
  induction l with
  | nil => intro l' h; rw [mapO_nil] at h; cases h; intro b hb; cases hb
  | cons a l ih =>
    intro l' h
    obtain ⟨b, bs, hb, hbs, rfl⟩ := mapO_cons_some h
    intro c hc
    rcases List.mem_cons.mp hc with rfl | hc
    · exact ⟨a, List.mem_cons_self a l, hb⟩
    · obtain ⟨a', ha', hfa'⟩ := ih hbs c hc
      exact ⟨a', List.mem_cons_of_mem a ha', hfa'⟩

theorem mapO_forall {f : α → Option β} :
    ∀ {l : List α} {l' : List β}, mapO f l = some l' →
      ∀ a ∈ l, ∃ b, f a = some b := by
  intro l
  induction l with
  | nil => intro l' _ a ha; cases ha
  | cons a l ih =>
    intro l' h
    obtain ⟨b, bs, hb, hbs, rfl⟩ := mapO_cons_some h
    intro c hc
    rcases List.mem_cons.mp hc with rfl | hc
    · exact ⟨b, hb⟩
    · exact ih hbs c hc

theorem mapO_total {f : α → Option β} :
    ∀ {l : List α}, (∀ a ∈ l, ∃ b, f a = some b) →
      ∃ l', mapO f l = some l' := by
  intro l
  induction l with
  | nil => intro _; exact ⟨[], rfl⟩
  | cons a l ih =>
    intro h
    obtain ⟨b, hb⟩ := h a (List.mem_cons_self a l)
    obtain ⟨bs, hbs⟩ := ih (fun x hx => h x (List.mem_cons_of_mem a hx))
    exact ⟨b :: bs, mapO_cons_of f hb hbs⟩

theorem mapO_get? {f : α → Option β} :
    ∀ {l : List α} {l' : List β}, mapO f l = some l' →
      ∀ {i : Nat} {a : α}, l[i]? = some a →
        ∃ b, l'[i]? = some b ∧ f a = some b := by
  intro l
  induction l with
  | nil => intro l' _ i a ha; simp at ha
  | cons x l ih =>
    intro l' h i a ha
    obtain ⟨b, bs, hb, hbs, rfl⟩ := mapO_cons_some h
    match i with
    | 0 =>
      simp at ha
      subst ha
      exact ⟨b, by simp, hb⟩
    | i + 1 =>
      simp at ha
      obtain ⟨c, hc, hfc⟩ := ih hbs ha
      exact ⟨c, by simpa using hc, hfc⟩

theorem mapO_compose {f : α → Option β} {g : β → Option γ} :
    ∀ {l : List α} {l₁ : List β} {l₂ : List γ},
      mapO f l = some l₁ → mapO g l₁ = some l₂ →
      mapO (fun a => (f a).bind g) l = some l₂ := by
  intro l
  induction l with
  | nil =>
    intro l₁ l₂ h₁ h₂
    rw [mapO_nil] at h₁; cases h₁
    rw [mapO_nil] at h₂; cases h₂
    rfl
  | cons a l ih =>
    intro l₁ l₂ h₁ h₂
    obtain ⟨b, bs, hb, hbs, rfl⟩ := mapO_cons_some h₁
    obtain ⟨c, cs, hc, hcs, rfl⟩ := mapO_cons_some h₂
    have : (f a).bind g = some c := by rw [hb, Option.some_bind', hc]
    exact mapO_cons_of _ this (ih hbs hcs)

theorem mapO_map (g : β → Option γ) (h : α → β) (l : List α) :
    mapO g (l.map h) = mapO (fun a => g (h a)) l := by
  induction l with
  | nil => rfl
  | cons a l ih => rw [List.map_cons, mapO_cons, mapO_cons, ih]

theorem mapO_congr {f g : α → Option β} (h : ∀ a, f a = g a) :
    ∀ (l : List α), mapO f l = mapO g l := by
  intro l
  induction l with
  | nil => rfl
  | cons a l ih => rw [mapO_cons, mapO_cons, h a, ih]

theorem mapO_some_comp (f : α → β) :
    ∀ (l : List α), mapO (fun a => some (f a)) l = some (l.map f) := by
  intro l
  induction l with
  | nil => rfl
  | cons a l ih => rw [mapO_cons, ih, Option.some_bind', Option.some_bind']; rfl

/-! Lemmas about row-level cell access and update. -/

theorem getVal_nil (c : String) : getVal [] c = none := rfl

theorem getVal_cons (a : String) (b : Value) (rest : Row) (c : String) :
    getVal ((a, b) :: rest) c = if a = c then some b else getVal rest c := rfl

theorem setVal_nil (c : String) (v : Value) : setVal [] c v = [(c, v)] := rfl

theorem setVal_cons (a : String) (b : Value) (rest : Row) (c : String)
    (v : Value) :
    setVal ((a, b) :: rest) c v =
      if a = c then (c, v) :: rest else (a, b) :: setVal rest c v := rfl

theorem renameCol_nil (old new : String) : renameCol old new [] = [] := rfl

theorem renameCol_cons (old new a : String) (b : Value) (rest : Row) :
    renameCol old new ((a, b) :: rest) =
      (if a = old then new else a, b) :: renameCol old new rest := rfl

theorem getVal_setVal_self (r : Row) (c : String) (v : Value) :
    getVal (setVal r c v) c = some v := by
  induction r with
  | nil => simp [setVal_nil, getVal_cons]
  | cons p rest ih =>
    obtain ⟨a, b⟩ := p
    by_cases hac : a = c
    · rw [setVal_cons, if_pos hac, getVal_cons, if_pos rfl]
    · rw [setVal_cons, if_neg hac, getVal_cons, if_neg hac, ih]

theorem getVal_setVal_ne (r : Row) {c c' : String} (v : Value)
    (h : c' ≠ c) : getVal (setVal r c v) c' = getVal r c' := by
  have hcc : ¬ c = c' := fun hh => h hh.symm
  induction r with
  | nil => simp [setVal_nil, getVal_cons, getVal_nil, hcc]
  | cons p rest ih =>
    obtain ⟨a, b⟩ := p
    by_cases hac : a = c
    · have hac' : ¬ a = c' := by rw [hac]; exact hcc
      rw [setVal_cons, if_pos hac, getVal_cons, if_neg hcc, getVal_cons,
        if_neg hac']
    · rw [setVal_cons, if_neg hac, getVal_cons, getVal_cons, ih]

theorem getVal_renameCol_ne (r : Row) {c old new : String}
    (h1 : c ≠ old) (h2 : c ≠ new) :
    getVal (renameCol old new r) c = getVal r c := by
  induction r with
  | nil => rfl
  | cons p rest ih =>
    obtain ⟨a, b⟩ := p
    rw [renameCol_cons]
    by_cases hao : a = old
    · have hnc : ¬ new = c := fun hh => h2 hh.symm
      have hac : ¬ a = c := by rw [hao]; exact fun hh => h1 hh.symm
      rw [if_pos hao, getVal_cons, if_neg hnc, getVal_cons, if_neg hac, ih]
    · rw [if_neg hao, getVal_cons, getVal_cons]
      by_cases hac : a = c
      · rw [if_pos hac, if_pos hac]
      · rw [if_neg hac, if_neg hac, ih]

theorem getVal_renameCol_new (r : Row) {old new : String}
    (hmiss : getVal r new = none) :
    getVal (renameCol old new r) new = getVal r old := by
  induction r with
  | nil => rfl
  | cons p rest ih =>
    obtain ⟨a, b⟩ := p
    rw [getVal_cons] at hmiss
    by_cases han : a = new
    · rw [if_pos han] at hmiss; cases hmiss
    · rw [if_neg han] at hmiss
      rw [renameCol_cons]
      by_cases hao : a = old
      · rw [if_pos hao, getVal_cons, if_pos rfl, getVal_cons, if_pos hao]
      · rw [if_neg hao, getVal_cons, if_neg han, getVal_cons, if_neg hao,
          ih hmiss]

theorem getVal_mem_keys {r : Row} {c : String} {v : Value}
    (h : getVal r c = some v) : c ∈ r.map Prod.fst := by
  induction r with
  | nil => cases h
  | cons p rest ih =>
    obtain ⟨a, b⟩ := p
    rw [getVal_cons] at h
    by_cases hac : a = c
    · simp [hac]
    · rw [if_neg hac] at h
      simpa using Or.inr (ih h)

/-! Lemmas about the DataFrame-level operations. -/

theorem getCol_eq_some {df : DFrame} {c : String} {vs : List Value}
    (h : getCol df c = some vs) :
    c ∈ df.cols ∧ mapO (fun r => getVal r c) df.rows = some vs := by
  unfold getCol at h
  by_cases hc : c ∈ df.cols
  · rw [if_pos hc] at h; exact ⟨hc, h⟩
  · rw [if_neg hc] at h; cases h

theorem getCol_none {df : DFrame} {c : String} (h : c ∉ df.cols) :
    getCol df c = none := by
  unfold getCol; rw [if_neg h]

theorem getCol_of {df : DFrame} {c : String} {vs : List Value}
    (hc : c ∈ df.cols) (h : mapO (fun r => getVal r c) df.rows = some vs) :
    getCol df c = some vs := by
  unfold getCol; rw [if_pos hc, h]

theorem setCol_eq_some {df : DFrame} {c : String} {vs : List Value}
    {d' : DFrame} (h : setCol df c vs = some d') :
    vs.length = df.rows.length ∧
    d'.cols = (if c ∈ df.cols then df.cols else df.cols ++ [c]) ∧
    d'.rows = List.zipWith (fun r v => setVal r c v) df.rows vs := by
  unfold setCol at h
  by_cases hl : vs.length = df.rows.length
  · rw [if_pos hl] at h
    cases h
    exact ⟨hl, rfl, rfl⟩
  · rw [if_neg hl] at h; cases h

theorem setCol_of {df : DFrame} {c : String} {vs : List Value}
    (hl : vs.length = df.rows.length) :
    setCol df c vs =
      some ⟨if c ∈ df.cols then df.cols else df.cols ++ [c],
            List.zipWith (fun r v => setVal r c v) df.rows vs⟩ := by
  unfold setCol; rw [if_pos hl]

theorem maskFilter_cols (df : DFrame) (mask : List Bool) :
    (maskFilter df mask).cols = df.cols := rfl

theorem selRow_keys {cols : List String} :
    ∀ {r r' : Row}, selRow cols r = some r' → r'.map Prod.fst = cols := by
  induction cols with
  | nil => intro r r' h; rw [selRow, mapO_nil] at h; cases h; rfl
  | cons c cols ih =>
    intro r r' h
    rw [selRow] at h
    obtain ⟨b, bs, hb, hbs, rfl⟩ := mapO_cons_some h
    cases hv : getVal r c with
    | none => rw [hv] at hb; cases hb
    | some v =>
      rw [hv] at hb
      cases hb
      simpa using ih hbs

theorem selRow_getVal {cols : List String} :
    ∀ {r r' : Row}, selRow cols r = some r' →
      ∀ c ∈ cols, getVal r' c = getVal r c := by
  induction cols with
  | nil => intro r r' _ c hc; cases hc
  | cons c0 cols ih =>
    intro r r' h c hc
    rw [selRow] at h
    obtain ⟨b, bs, hb, hbs, rfl⟩ := mapO_cons_some h
    cases hv : getVal r c0 with
    | none => rw [hv] at hb; cases hb
    | some v =>
      rw [hv] at hb
      cases hb
      by_cases hcc : c0 = c
      · rw [getVal_cons, if_pos hcc, ← hcc]
        exact hv.symm
      · rw [getVal_cons, if_neg hcc]
        rcases List.mem_cons.mp hc with rfl | hc'
        · exact absurd rfl hcc
        · exact ih hbs c hc'

theorem selectCols_eq_some {df : DFrame} {cols : List String} {d' : DFrame}
    (h : selectCols df cols = some d') :
    d'.cols = cols ∧ mapO (selRow cols) df.rows = some d'.rows := by
  unfold selectCols at h
  by_cases hc : cols.all (fun c => decide (c ∈ df.cols))
  · rw [if_pos hc] at h
    cases hm : mapO (selRow cols) df.rows with
    | none => rw [hm] at h; cases h
    | some rs =>
      rw [hm, Option.map_some'] at h
      obtain rfl := Option.some_inj.mp h
      exact ⟨rfl, rfl⟩
  · rw [if_neg hc] at h; cases h

/-- The failure filter of line 88, characterized row by row: when every
full_text cell is a string, the masked selection is exactly the filter by
keepB. -/
theorem maskFilter_rows :
    ∀ {rows : List Row} {fts : List Value} {mask : List Bool},
      mapO (fun r => getVal r "full_text") rows = some fts →
      mapO strContainsMarker fts = some mask →
      ((rows.zip (mask.map (fun b => !b))).filter (fun p => p.2)).map
          (fun p => p.1) =
        rows.filter keepB := by
  intro rows
  induction rows with
  | nil =>
    intro fts mask h1 h2
    rw [mapO_nil] at h1; cases h1
    rw [mapO_nil] at h2; cases h2
    rfl
  | cons r rest ih =>
    intro fts mask h1 h2
    obtain ⟨v, vrest, hv, hvrest, rfl⟩ := mapO_cons_some h1
    obtain ⟨b, brest, hb, hbrest, rfl⟩ := mapO_cons_some h2
    cases v with
    | vStr s =>
      rw [strContainsMarker] at hb
      cases hb
      have hkeep : keepB r = !(decide (failureMarker <:+: s)) := by
        unfold keepB; rw [hv]
      have hrest := ih hvrest hbrest
      cases hdec : decide (failureMarker <:+: s) with
      | false =>
        simp [List.zip_cons_cons, List.filter_cons, hkeep, hdec, hrest]
      | true =>
        simp [List.zip_cons_cons, List.filter_cons, hkeep, hdec, hrest]
    | vPub p => simp [strContainsMarker] at hb
    | vTime t => simp [strContainsMarker] at hb
    | vDate d => simp [strContainsMarker] at hb
    | vNone => simp [strContainsMarker] at hb

/-- One column stage (read c1, transform, write c2), transported from the
whole-column form to the per-row form. -/
theorem stage_rows {c1 c2 : String} {f : Value → Option Value} :
    ∀ {rows : List Row} {vs vs' : List Value},
      mapO (fun r => getVal r c1) rows = some vs →
      mapO f vs = some vs' →
      mapO (rowMapCol c1 c2 f) rows =
        some (List.zipWith (fun r v => setVal r c2 v) rows vs') := by
  intro rows
  induction rows with
  | nil =>
    intro vs vs' h1 h2
    rw [mapO_nil] at h1; cases h1
    rw [mapO_nil] at h2; cases h2
    rfl
  | cons r rest ih =>
    intro vs vs' h1 h2
    obtain ⟨v, vrest, hv, hvrest, rfl⟩ := mapO_cons_some h1
    obtain ⟨w, wrest, hw, hwrest, rfl⟩ := mapO_cons_some h2
    have hr : rowMapCol c1 c2 f r = some (setVal r c2 w) := by
      unfold rowMapCol
      rw [hv, Option.some_bind', hw, Option.some_bind']
    rw [List.zipWith_cons_cons]
    exact mapO_cons_of _ hr (ih hvrest hwrest)

/-- Master characterization of a successful Cleaner run: the output
columns are the fixed final list, and the output rows are exactly the
per-row pipeline applied to the rows surviving the failure filter. -/
theorem cleaning_eq_some {parse : List Char → Option Timestamp}
    {df : DFrame} {out : DFrame}
    (h : cleaning_fetched_articles parse df = some out) :
    out.cols = finalCols ∧
    mapO (perRowClean parse) (df.rows.filter keepB) = some out.rows := by
  unfold cleaning_fetched_articles at h
  dsimp only at h
  split at h
  · cases h
  rename_i fts E1
  split at h
  · cases h
  rename_i mask E2
  split at h
  · cases h
  rename_i t1 E3
  split at h
  · cases h
  rename_i d2 E4
  split at h
  · cases h
  rename_i t2 E5
  split at h
  · cases h
  rename_i d3 E6
  split at h
  · cases h
  rename_i t3 E7
  split at h
  · cases h
  rename_i d4 E8
  split at h
  · cases h
  rename_i pubs E9
  split at h
  · cases h
  rename_i titles E10
  split at h
  · cases h
  rename_i d6 E11
  split at h
  · cases h
  rename_i pts E12
  split at h
  · cases h
  rename_i pts2 E13
  split at h
  · cases h
  rename_i d7 E14
  split at h
  · cases h
  rename_i pts3 E15
  split at h
  · cases h
  rename_i dts E16
  split at h
  · cases h
  rename_i d8 E17
  obtain ⟨hoc, hsel⟩ := selectCols_eq_some h
  obtain ⟨hc1, HA⟩ := getCol_eq_some E1
  have hd1 : (maskFilter df (mask.map (fun b => !b))).rows =
      df.rows.filter keepB := maskFilter_rows HA E2
  obtain ⟨hc3, HB⟩ := getCol_eq_some E3
  obtain ⟨hl4, hcols4, hrows4⟩ := setCol_eq_some E4
  have S1 := @stage_rows "full_text" "full_text" _ _ _ _ HB
    (mapO_some_comp (replaceStrVal '\n' pipePipe) t1)
  rw [← hrows4] at S1
  obtain ⟨hc5, HC⟩ := getCol_eq_some E5
  obtain ⟨hl6, hcols6, hrows6⟩ := setCol_eq_some E6
  have S2 := @stage_rows "full_text" "full_text" _ _ _ _ HC
    (mapO_some_comp (replaceStrVal '\r' pipePipe) t2)
  rw [← hrows6] at S2
  obtain ⟨hc7, HD⟩ := getCol_eq_some E7
  obtain ⟨hl8, hcols8, hrows8⟩ := setCol_eq_some E8
  have S3 := @stage_rows "full_text" "full_text" _ _ _ _ HD
    (mapO_some_comp (replaceStrVal '\\' []) t3)
  rw [← hrows8] at S3
  obtain ⟨hc9, HE⟩ := getCol_eq_some E9
  obtain ⟨hl11, hcols11, hrows11⟩ := setCol_eq_some E11
  have S4 := @stage_rows "publisher" "source_publisher" _ _ _ _ HE E10
  rw [← hrows11] at S4
  obtain ⟨hc12, HF⟩ := getCol_eq_some E12
  obtain ⟨hl14, hcols14, hrows14⟩ := setCol_eq_some E14
  have S5 := @stage_rows "published_time" "published_time" _ _ _ _ HF E13
  rw [← hrows14] at S5
  obtain ⟨hc15, HG⟩ := getCol_eq_some E15
  obtain ⟨hl17, hcols17, hrows17⟩ := setCol_eq_some E17
  have S6 := @stage_rows "published_time" "published_date" _ _ _ _ HG E16
  rw [← hrows17] at S6
  have C7' := mapO_compose S6 hsel
  have C6' := mapO_compose S5 C7'
  have C5' := mapO_compose S4 C6'
  have hd5 : (renameDF d4 "published date" "published_time").rows =
      d4.rows.map (renameCol "published date" "published_time") := rfl
  rw [hd5, mapO_map] at C5'
  have C4' := mapO_compose S3 C5'
  have C3' := mapO_compose S2 C4'
  have C2' := mapO_compose S1 C3'
  rw [hd1] at C2'
  exact ⟨hoc, C2'⟩

/-! Per-row inversion lemmas. -/

theorem rowMapCol_eq_some {c1 c2 : String} {f : Value → Option Value}
    {r r' : Row} (h : rowMapCol c1 c2 f r = some r') :
    ∃ v w, getVal r c1 = some v ∧ f v = some w ∧ r' = setVal r c2 w := by
  unfold rowMapCol at h
  rw [Option.bind_eq_some'] at h
  obtain ⟨v, hv, h⟩ := h
  rw [Option.bind_eq_some'] at h
  obtain ⟨w, hw, h⟩ := h
  exact ⟨v, w, hv, hw, (Option.some_inj.mp h).symm⟩

theorem pubTitleVal_eq_some {v w : Value} (h : pubTitleVal v = some w) :
    ∃ p, v = Value.vPub p ∧ w = Value.vStr p.title := by
  cases v with
  | vPub p =>
    rw [pubTitleVal] at h
    exact ⟨p, rfl, (Option.some_inj.mp h).symm⟩
  | vStr s => simp [pubTitleVal] at h
  | vTime t => simp [pubTitleVal] at h
  | vDate d => simp [pubTitleVal] at h
  | vNone => simp [pubTitleVal] at h

theorem toDatetimeVal_eq_some {parse : List Char → Option Timestamp}
    {v w : Value} (h : toDatetimeVal parse v = some w) :
    ∃ t, w = Value.vTime t := by
  cases v with
  | vStr s =>
    rw [toDatetimeVal] at h
    cases hp : parse s with
    | none => rw [hp] at h; cases h
    | some t =>
      rw [hp, Option.map_some'] at h
      exact ⟨t, (Option.some_inj.mp h).symm⟩
  | vTime t =>
    rw [toDatetimeVal] at h
    exact ⟨t, (Option.some_inj.mp h).symm⟩
  | vPub p => simp [toDatetimeVal] at h
  | vDate d => simp [toDatetimeVal] at h
  | vNone => simp [toDatetimeVal] at h

theorem keepB_eq_true {r : Row} (hk : keepB r = true) :
    ∃ s, getVal r "full_text" = some (Value.vStr s) ∧
      decide (failureMarker <:+: s) = false := by
  unfold keepB at hk
  cases hgv : getVal r "full_text" with
  | none => rw [hgv] at hk; cases hk
  | some v =>
    rw [hgv] at hk
    cases v with
    | vStr s =>
      have hk' : (!decide (failureMarker <:+: s)) = true := hk
      refine ⟨s, rfl, ?_⟩
      cases hdec : decide (failureMarker <:+: s) with
      | false => rfl
      | true => rw [hdec] at hk'; cases hk'
    | vPub p => cases hk
    | vTime t => cases hk
    | vDate d => cases hk
    | vNone => cases hk

/-- Full per-row trace of the Cleaner pipeline on a surviving row: the raw
row's full_text is a marker-free string, its publisher is an actual
publisher structure, and the produced cleaned row carries the normalized
text, the publisher display name, a parsed timestamp with its derived
date, and exactly the final column keys. -/
theorem perRowClean_spec {parse : List Char → Option Timestamp}
    {r r' : Row} (h : perRowClean parse r = some r')
    (hk : keepB r = true) :
    ∃ s p t,
      getVal r "full_text" = some (Value.vStr s) ∧
      decide (failureMarker <:+: s) = false ∧
      getVal r "publisher" = some (Value.vPub p) ∧
      getVal r' "full_text" = some (Value.vStr (cleanText s)) ∧
      getVal r' "source_publisher" = some (Value.vStr p.title) ∧
      getVal r' "published_time" = some (Value.vTime t) ∧
      getVal r' "published_date" = some (Value.vDate t.date) ∧
      r'.map Prod.fst = finalCols := by
  obtain ⟨s, hs, hmk⟩ := keepB_eq_true hk
  unfold perRowClean at h
  rw [Option.bind_eq_some'] at h
  obtain ⟨r1, h1, h⟩ := h
  rw [Option.bind_eq_some'] at h
  obtain ⟨r2, h2, h⟩ := h
  rw [Option.bind_eq_some'] at h
  obtain ⟨r3, h3, h⟩ := h
  rw [Option.bind_eq_some'] at h
  obtain ⟨r5, h5, h⟩ := h
  rw [Option.bind_eq_some'] at h
  obtain ⟨r6, h6, h⟩ := h
  rw [Option.bind_eq_some'] at h
  obtain ⟨r7, h7, hsel⟩ := h
  -- stage 1: line-feed replacement
  obtain ⟨v1, w1, hv1, hw1, hr1⟩ := rowMapCol_eq_some h1
  rw [hs] at hv1
  obtain rfl := Option.some_inj.mp hv1
  obtain rfl := Option.some_inj.mp hw1
  -- stage 2: carriage-return replacement
  obtain ⟨v2, w2, hv2, hw2, hr2⟩ := rowMapCol_eq_some h2
  rw [hr1, getVal_setVal_self] at hv2
  obtain rfl := Option.some_inj.mp hv2
  obtain rfl := Option.some_inj.mp hw2
  -- stage 3: backslash removal
  obtain ⟨v3, w3, hv3, hw3, hr3⟩ := rowMapCol_eq_some h3
  rw [hr2, getVal_setVal_self] at hv3
  obtain rfl := Option.some_inj.mp hv3
  obtain rfl := Option.some_inj.mp hw3
  have hft3 : getVal r3 "full_text" = some (Value.vStr (cleanText s)) := by
    rw [hr3, getVal_setVal_self]
    rfl
  have hpub3 : getVal r3 "publisher" = getVal r "publisher" := by
    rw [hr3, getVal_setVal_ne _ _ (by decide), hr2,
      getVal_setVal_ne _ _ (by decide), hr1,
      getVal_setVal_ne _ _ (by decide)]
  -- publisher-name extraction, after the rename
  obtain ⟨vp, wp, hvp, hwp, hr5⟩ := rowMapCol_eq_some h5
  rw [getVal_renameCol_ne _ (by decide) (by decide), hpub3] at hvp
  obtain ⟨p, rfl, rfl⟩ := pubTitleVal_eq_some hwp
  -- timestamp parse
  obtain ⟨vt, wt, hvt, hwt, hr6⟩ := rowMapCol_eq_some h6
  obtain ⟨t, rfl⟩ := toDatetimeVal_eq_some hwt
  -- date derivation
  obtain ⟨vd, wd, hvd, hwd, hr7⟩ := rowMapCol_eq_some h7
  rw [hr6, getVal_setVal_self] at hvd
  obtain rfl := Option.some_inj.mp hvd
  rw [dateOfVal] at hwd
  obtain rfl := Option.some_inj.mp hwd
  -- transport through the final projection
  have hkeys := selRow_keys hsel
  have hget := selRow_getVal hsel
  refine ⟨s, p, t, hs, hmk, hvp, ?_, ?_, ?_, ?_, hkeys⟩
  · rw [hget "full_text" (by decide), hr7,
      getVal_setVal_ne _ _ (by decide), hr6,
      getVal_setVal_ne _ _ (by decide), hr5,
      getVal_setVal_ne _ _ (by decide),
      getVal_renameCol_ne _ (by decide) (by decide), hft3]
  · rw [hget "source_publisher" (by decide), hr7,
      getVal_setVal_ne _ _ (by decide), hr6,
      getVal_setVal_ne _ _ (by decide), hr5, getVal_setVal_self]
  · rw [hget "published_time" (by decide), hr7,
      getVal_setVal_ne _ _ (by decide), hr6, getVal_setVal_self]
  · rw [hget "published_date" (by decide), hr7, getVal_setVal_self]

/-! Character-level lemmas about the text normalization. -/

theorem mem_replaceChar {a c : Char} {rep s : List Char}
    (h : a ∈ replaceChar c rep s) : a ∈ rep ∨ (a ∈ s ∧ a ≠ c) := by
  induction s with
  | nil => cases h
  | cons x xs ih =>
    rw [replaceChar] at h
    rcases List.mem_append.mp h with h1 | h2
    · by_cases hxc : x = c
      · rw [if_pos hxc] at h1; exact Or.inl h1
      · rw [if_neg hxc] at h1
        obtain rfl := List.mem_singleton.mp h1
        exact Or.inr ⟨List.mem_cons_self _ _, hxc⟩
    · rcases ih h2 with h3 | ⟨h4, h5⟩
      · exact Or.inl h3
      · exact Or.inr ⟨List.mem_cons_of_mem _ h4, h5⟩

theorem not_mem_replaceChar_self {c : Char} {rep : List Char}
    (hrep : c ∉ rep) (s : List Char) : c ∉ replaceChar c rep s := by
  intro h
  rcases mem_replaceChar h with h1 | ⟨_, h2⟩
  · exact hrep h1
  · exact h2 rfl

theorem not_mem_replaceChar_of {a c : Char} {rep s : List Char}
    (hrep : a ∉ rep) (hs : a ∉ s) : a ∉ replaceChar c rep s := by
  intro h
  rcases mem_replaceChar h with h1 | ⟨h2, _⟩
  · exact hrep h1
  · exact hs h2

theorem cleanText_no_ctrl (s : List Char) :
    '\n' ∉ cleanText s ∧ '\r' ∉ cleanText s ∧ '\\' ∉ cleanText s := by
  unfold cleanText
  refine ⟨?_, ?_, ?_⟩
  · exact not_mem_replaceChar_of (by decide)
      (not_mem_replaceChar_of (by decide)
        (not_mem_replaceChar_self (by decide) s))
  · exact not_mem_replaceChar_of (by decide)
      (not_mem_replaceChar_self (by decide) _)
  · exact not_mem_replaceChar_self (by decide) _

/-! Helpers for the row-count bookkeeping. -/

theorem keepB_of_vStr {r : Row} {s : List Char}
    (hs : getVal r "full_text" = some (Value.vStr s)) :
    keepB r = !(decide (failureMarker <:+: s)) := by
  unfold keepB; rw [hs]

theorem hasMarkerRow_of_vStr {r : Row} {s : List Char}
    (hs : getVal r "full_text" = some (Value.vStr s)) :
    hasMarkerRow r = decide (failureMarker <:+: s) := by
  unfold hasMarkerRow; rw [hs]

theorem mapO_forall_mem {f : α → Option β} :
    ∀ {l : List α} {l' : List β}, mapO f l = some l' →
      ∀ a ∈ l, ∃ b ∈ l', f a = some b := by
  intro l
  induction l with
  | nil => intro l' _ a ha; cases ha
  | cons a l ih =>
    intro l' h
    obtain ⟨b, bs, hb, hbs, rfl⟩ := mapO_cons_some h
    intro c hc
    rcases List.mem_cons.mp hc with rfl | hc
    · exact ⟨b, List.mem_cons_self b bs, hb⟩
    · obtain ⟨b', hb', hfb'⟩ := ih hbs c hc
      exact ⟨b', List.mem_cons_of_mem b hb', hfb'⟩

theorem length_filter_add_countP {p q : α → Bool} :
    ∀ {l : List α}, (∀ a ∈ l, p a = !(q a)) →
      (l.filter p).length + l.countP q = l.length := by
  intro l
  induction l with
  | nil => intro _; rfl
  | cons a l ih =>
    intro hpq
    have ha := hpq a (List.mem_cons_self a l)
    have hrest := ih (fun x hx => hpq x (List.mem_cons_of_mem a hx))
    rw [List.filter_cons, List.countP_cons]
    cases hq : q a with
    | false =>
      have ha' : p a = true := by rw [ha, hq]; rfl
      rw [ha', if_pos rfl, if_neg (by decide), List.length_cons,
        List.length_cons]
      omega
    | true =>
      have ha' : p a = false := by rw [ha, hq]; rfl
      rw [ha', if_neg (by decide), if_pos rfl, List.length_cons]
      omega

theorem cleaning_full_text_strings {parse : List Char → Option Timestamp}
    {df out : DFrame} (h : cleaning_fetched_articles parse df = some out) :
    ∀ r ∈ df.rows, ∃ s, getVal r "full_text" = some (Value.vStr s) := by
  unfold cleaning_fetched_articles at h
  dsimp only at h
  split at h
  · cases h
  rename_i fts E1
  split at h
  · cases h
  rename_i mask E2
  obtain ⟨hc1, HA⟩ := getCol_eq_some E1
  intro r hr
  obtain ⟨v, hvmem, hv⟩ := mapO_forall_mem HA r hr
  obtain ⟨b, hbmem, hb⟩ := mapO_forall_mem E2 v hvmem
  cases v with
  | vStr s => exact ⟨s, hv⟩
  | vPub p => simp [strContainsMarker] at hb
  | vTime t => simp [strContainsMarker] at hb
  | vDate d => simp [strContainsMarker] at hb
  | vNone => simp [strContainsMarker] at hb

/-- C1: a successful Cleaner run never grows the table, drops exactly the
rows whose full_text contains the failure marker, and every cleaned row is
the pipeline image of a raw row whose full_text is free of the marker. -/
theorem claim_C1_row_count (parse : List Char → Option Timestamp)
    (df out : DFrame) (h : cleaning_fetched_articles parse df = some out) :
    out.rows.length ≤ df.rows.length ∧
    out.rows.length = df.rows.length - df.rows.countP hasMarkerRow ∧
    ∀ r ∈ out.rows, ∃ r0 ∈ df.rows,
      (∃ s, getVal r0 "full_text" = some (Value.vStr s) ∧
        decide (failureMarker <:+: s) = false) ∧
      perRowClean parse r0 = some r := by
  obtain ⟨hoc, hrows⟩ := cleaning_eq_some h
  have hlen : out.rows.length = (df.rows.filter keepB).length :=
    mapO_length hrows
  have hvstr := cleaning_full_text_strings h
  have hpt : ∀ r ∈ df.rows, keepB r = !(hasMarkerRow r) := by
    intro r hr
    obtain ⟨s, hs⟩ := hvstr r hr
    rw [keepB_of_vStr hs, hasMarkerRow_of_vStr hs]
  have hcnt := length_filter_add_countP hpt
  refine ⟨by omega, by omega, ?_⟩
  intro r hr
  obtain ⟨r0, hr0mem, hpr⟩ := mapO_mem hrows r hr
  obtain ⟨hr0, hkeep⟩ := List.mem_filter.mp hr0mem
  obtain ⟨s, hs, hmk⟩ := keepB_eq_true hkeep
  exact ⟨r0, hr0, ⟨s, hs, hmk⟩, hpr⟩

/-- C4: after a successful Cleaner run no cleaned row's full_text contains
a line feed, a carriage return, or a backslash, and on the concrete input
ending in a line feed and a carriage return the normalization yields
exactly the double-pipe encoded string. -/
theorem claim_C4_text_normalization :
    (∀ (parse : List Char → Option Timestamp) (df out : DFrame),
      cleaning_fetched_articles parse df = some out →
      ∀ r ∈ out.rows, ∀ s, getVal r "full_text" = some (Value.vStr s) →
        '\n' ∉ s ∧ '\r' ∉ s ∧ '\\' ∉ s) ∧
    cleanText "line1\nline2\r\n".data = "line1||line2||||".data := by
  constructor
  · intro parse df out h r hr s hsr
    obtain ⟨hoc, hrows⟩ := cleaning_eq_some h
    obtain ⟨r0, hr0mem, hpr⟩ := mapO_mem hrows r hr
    obtain ⟨hr0, hkeep⟩ := List.mem_filter.mp hr0mem
    obtain ⟨s0, p, t, _, _, _, hft, _, _, _, _⟩ := perRowClean_spec hpr hkeep
    rw [hft] at hsr
    obtain h' := Option.some_inj.mp hsr
    cases h'
    exact cleanText_no_ctrl s0
  · decide

/-- C5: the cleaned table's column index, and every cleaned row's key
list, are exactly the fixed eight-column list in its fixed order. -/
theorem claim_C5_columns (parse : List Char → Option Timestamp)
    (df out : DFrame) (h : cleaning_fetched_articles parse df = some out) :
    out.cols = ["entity", "source_publisher", "title", "full_text", "url",
      "published_time", "published_date", "image_url"] ∧
    ∀ r ∈ out.rows,
      r.map Prod.fst = ["entity", "source_publisher", "title", "full_text",
        "url", "published_time", "published_date", "image_url"] := by
  obtain ⟨hoc, hrows⟩ := cleaning_eq_some h
  refine ⟨hoc, ?_⟩
  intro r hr
  obtain ⟨r0, hr0mem, hpr⟩ := mapO_mem hrows r hr
  obtain ⟨hr0, hkeep⟩ := List.mem_filter.mp hr0mem
  obtain ⟨s0, p, t, _, _, _, _, _, _, _, hkeys⟩ := perRowClean_spec hpr hkeep
  exact hkeys

/-- C7: in every row of a successfully cleaned table, published_date is
the calendar-date component of that row's published_time timestamp. -/
theorem claim_C7_date_component (parse : List Char → Option Timestamp)
    (df out : DFrame) (h : cleaning_fetched_articles parse df = some out) :
    ∀ r ∈ out.rows, ∃ t,
      getVal r "published_time" = some (Value.vTime t) ∧
      getVal r "published_date" = some (Value.vDate t.date) := by
  obtain ⟨hoc, hrows⟩ := cleaning_eq_some h
  intro r hr
  obtain ⟨r0, hr0mem, hpr⟩ := mapO_mem hrows r hr
  obtain ⟨hr0, hkeep⟩ := List.mem_filter.mp hr0mem
  obtain ⟨s0, p, t, _, _, _, _, _, hpt, hpd, _⟩ := perRowClean_spec hpr hkeep
  exact ⟨t, hpt, hpd⟩

/-- C8: every row of a successfully cleaned table is the pipeline image of
a raw row and takes source_publisher from the title sub-field of that very
row's publisher structure. -/
theorem claim_C8_publisher_title (parse : List Char → Option Timestamp)
    (df out : DFrame) (h : cleaning_fetched_articles parse df = some out) :
    ∀ r ∈ out.rows, ∃ r0 ∈ df.rows, ∃ p,
      perRowClean parse r0 = some r ∧
      getVal r0 "publisher" = some (Value.vPub p) ∧
      getVal r "source_publisher" = some (Value.vStr p.title) := by
  obtain ⟨hoc, hrows⟩ := cleaning_eq_some h
  intro r hr
  obtain ⟨r0, hr0mem, hpr⟩ := mapO_mem hrows r hr
  obtain ⟨hr0, hkeep⟩ := List.mem_filter.mp hr0mem
  obtain ⟨s0, p, t, _, _, hpub, _, hsp, _, _, _⟩ := perRowClean_spec hpr hkeep
  exact ⟨r0, hr0, p, hpr, hpub, hsp⟩

/-! Lemmas about the Fetcher. -/

theorem ofRecords_rows (l : List Row) : (DFrame.ofRecords l).rows = l := by
  cases l <;> rfl

theorem zipWith_getElem?_of {f : α → β → γ} :
    ∀ {l1 : List α} {l2 : List β} {i : Nat} {a : α} {b : β},
      l1[i]? = some a → l2[i]? = some b →
      (List.zipWith f l1 l2)[i]? = some (f a b) := by
  intro l1
  induction l1 with
  | nil => intro l2 i a b h1 _; simp at h1
  | cons x l1 ih =>
    intro l2 i a b h1 h2
    cases l2 with
    | nil => simp at h2
    | cons y l2 =>
      match i with
      | 0 =>
        simp at h1 h2
        subst h1
        subst h2
        simp [List.zipWith_cons_cons]
      | i + 1 =>
        simp at h1 h2
        simpa [List.zipWith_cons_cons] using ih h1 h2

theorem strUrl_eq_some {v : Value} {u : List Char} (h : strUrl v = some u) :
    v = Value.vStr u := by
  cases v with
  | vStr u' =>
    obtain rfl := Option.some_inj.mp h
    rfl
  | vPub p => simp [strUrl] at h
  | vTime t => simp [strUrl] at h
  | vDate d => simp [strUrl] at h
  | vNone => simp [strUrl] at h

/-- Master characterization of a successful Fetcher run: the url column
was read off the records, each url cell was a string, and the output rows
are the input records augmented column-wise with the per-url fetch
results and the constant entity cell. -/
theorem fetch_eq_some
    {fetchA : List Char → Except (List Char) (List Char × List (List Char))}
    {sc : List Char} {items : List Row} {out : DFrame}
    (h : fetch_daily_stock_articles fetchA sc items = some out) :
    ∃ urlVals urls,
      getCol (DFrame.ofRecords items) "url" = some urlVals ∧
      mapO strUrl urlVals = some urls ∧
      urls.length = items.length ∧
      out.rows.length = items.length ∧
      out.rows =
        (List.zipWith (fun r v => setVal r "image_url" v)
          (List.zipWith (fun r v => setVal r "full_text" v) items
            ((urls.map (processUrl fetchA)).map (fun p => p.1)))
          ((urls.map (processUrl fetchA)).map (fun p => p.2))).map
          (fun r => setVal r "entity" (Value.vStr sc)) := by
  unfold fetch_daily_stock_articles at h
  dsimp only at h
  split at h
  · cases h
  rename_i urlVals E1
  split at h
  · cases h
  rename_i urls E2
  split at h
  · cases h
  rename_i df1 E3
  split at h
  · cases h
  rename_i df2 E4
  obtain rfl := Option.some_inj.mp h
  obtain ⟨hl3, hc3, hr3⟩ := setCol_eq_some E3
  obtain ⟨hl4, hc4, hr4⟩ := setCol_eq_some E4
  have hlu : urlVals.length = items.length := by
    have hx := mapO_length (getCol_eq_some E1).2
    rwa [ofRecords_rows] at hx
  have hlurls : urls.length = urlVals.length := mapO_length E2
  have hrows : (setColConst df2 "entity" (Value.vStr sc)).rows =
      (List.zipWith (fun r v => setVal r "image_url" v)
        (List.zipWith (fun r v => setVal r "full_text" v) items
          ((urls.map (processUrl fetchA)).map (fun p => p.1)))
        ((urls.map (processUrl fetchA)).map (fun p => p.2))).map
        (fun r => setVal r "entity" (Value.vStr sc)) := by
    show df2.rows.map (fun r => setVal r "entity" (Value.vStr sc)) = _
    rw [hr4, hr3, ofRecords_rows]
  refine ⟨urlVals, urls, E1, E2, by omega, ?_, hrows⟩
  rw [hrows]
  simp only [List.length_map, List.length_zipWith]
  omega

/-- Whenever the url column reads off and every url cell is a string, the
Fetcher succeeds, whatever the download/parse oracle answers, and returns
one row per record. -/
theorem fetch_succeeds
    {fetchA : List Char → Except (List Char) (List Char × List (List Char))}
    {sc : List Char} {items : List Row} {urlVals : List Value}
    {urls : List (List Char)}
    (h1 : getCol (DFrame.ofRecords items) "url" = some urlVals)
    (h2 : mapO strUrl urlVals = some urls) :
    ∃ out, fetch_daily_stock_articles fetchA sc items = some out ∧
      out.rows.length = items.length := by
  have hlu : urlVals.length = items.length := by
    have hx := mapO_length (getCol_eq_some h1).2
    rwa [ofRecords_rows] at hx
  have hlurls : urls.length = urlVals.length := mapO_length h2
  have hlen1 : ((urls.map (processUrl fetchA)).map (fun p => p.1)).length =
      (DFrame.ofRecords items).rows.length := by
    rw [ofRecords_rows]
    simp only [List.length_map]
    omega
  obtain ⟨D1, E3⟩ : ∃ D1, setCol (DFrame.ofRecords items) "full_text"
      ((urls.map (processUrl fetchA)).map (fun p => p.1)) = some D1 :=
    ⟨_, @setCol_of (DFrame.ofRecords items) "full_text"
      ((urls.map (processUrl fetchA)).map (fun p => p.1)) hlen1⟩
  obtain ⟨hl3, hc3, hr3⟩ := setCol_eq_some E3
  have hlenD1 : D1.rows.length = items.length := by
    rw [hr3, ofRecords_rows]
    simp only [List.length_zipWith, List.length_map]
    omega
  have hlen2 : ((urls.map (processUrl fetchA)).map (fun p => p.2)).length =
      D1.rows.length := by
    rw [hlenD1]
    simp only [List.length_map]
    omega
  obtain ⟨D2, E4⟩ : ∃ D2, setCol D1 "image_url"
      ((urls.map (processUrl fetchA)).map (fun p => p.2)) = some D2 :=
    ⟨_, @setCol_of D1 "image_url"
      ((urls.map (processUrl fetchA)).map (fun p => p.2)) hlen2⟩
  obtain ⟨hl4, hc4, hr4⟩ := setCol_eq_some E4
  have hlenD2 : D2.rows.length = items.length := by
    rw [hr4]
    simp only [List.length_zipWith]
    omega
  refine ⟨setColConst D2 "entity" (Value.vStr sc), ?_, ?_⟩
  · simp only [fetch_daily_stock_articles, h1, h2, E3, E4]
  · show (D2.rows.map (fun r => setVal r "entity" (Value.vStr sc))).length = _
    rw [List.length_map, hlenD2]

/-- C2: on a successful Fetcher run, every search result whose download or
parse fails gets the placeholder string recorded in both its full_text and
image_url cells while the batch keeps one row per result; and a per-url
failure never decides success — the same input succeeds under any other
download/parse oracle, with the same row count. -/
theorem claim_C2_error_placeholder :
    (∀ (fetchA : List Char → Except (List Char) (List Char × List (List Char)))
       (sc : List Char) (items : List Row) (out : DFrame) (i : Nat)
       (item : Row) (u e : List Char),
      fetch_daily_stock_articles fetchA sc items = some out →
      items[i]? = some item →
      getVal item "url" = some (Value.vStr u) →
      fetchA u = Except.error e →
      out.rows.length = items.length ∧
      ∃ r, out.rows[i]? = some r ∧
        getVal r "full_text" = some (Value.vStr (errMsg u e)) ∧
        getVal r "image_url" = some (Value.vStr (errMsg u e))) ∧
    (∀ (fetchA fetchA' : List Char →
        Except (List Char) (List Char × List (List Char)))
       (sc : List Char) (items : List Row) (out : DFrame),
      fetch_daily_stock_articles fetchA sc items = some out →
      ∃ out', fetch_daily_stock_articles fetchA' sc items = some out' ∧
        out'.rows.length = out.rows.length) := by
  constructor
  · intro fetchA sc items out i item u e h hitem hu he
    obtain ⟨urlVals, urls, E1, E2, hlurls, hlout, hout⟩ := fetch_eq_some h
    refine ⟨hlout, ?_⟩
    have HU := (getCol_eq_some E1).2
    rw [ofRecords_rows] at HU
    obtain ⟨v, hvix, hveq⟩ := mapO_get? HU hitem
    rw [hu] at hveq
    obtain rfl := Option.some_inj.mp hveq
    obtain ⟨u', huix, hustr⟩ := mapO_get? E2 hvix
    have hu' : (some u : Option (List Char)) = some u' := hustr
    obtain rfl := Option.some_inj.mp hu'
    have hres : (urls.map (processUrl fetchA))[i]? =
        some (processUrl fetchA u) := by
      rw [List.getElem?_map, huix, Option.map_some']
    have hproc : processUrl fetchA u =
        (Value.vStr (errMsg u e), Value.vStr (errMsg u e)) := by
      unfold processUrl
      rw [he]
    have hfts : ((urls.map (processUrl fetchA)).map (fun p => p.1))[i]? =
        some (Value.vStr (errMsg u e)) := by
      rw [List.getElem?_map, hres, Option.map_some', hproc]
    have himgs : ((urls.map (processUrl fetchA)).map (fun p => p.2))[i]? =
        some (Value.vStr (errMsg u e)) := by
      rw [List.getElem?_map, hres, Option.map_some', hproc]
    have hz1 := @zipWith_getElem?_of _ _ _
      (fun r v => setVal r "full_text" v) _ _ _ _ _ hitem hfts
    have hz2 := @zipWith_getElem?_of _ _ _
      (fun r v => setVal r "image_url" v) _ _ _ _ _ hz1 himgs
    have hrow : out.rows[i]? = some (setVal (setVal
        (setVal item "full_text" (Value.vStr (errMsg u e)))
        "image_url" (Value.vStr (errMsg u e)))
        "entity" (Value.vStr sc)) := by
      rw [hout, List.getElem?_map, hz2, Option.map_some']
    refine ⟨_, hrow, ?_, ?_⟩
    · rw [getVal_setVal_ne _ _ (by decide), getVal_setVal_ne _ _ (by decide),
        getVal_setVal_self]
    · rw [getVal_setVal_ne _ _ (by decide), getVal_setVal_self]
  · intro fetchA fetchA' sc items out h
    obtain ⟨urlVals, urls, E1, E2, hlurls, hlout, hout⟩ := fetch_eq_some h
    obtain ⟨out', h', hlen'⟩ := @fetch_succeeds fetchA' sc items urlVals urls E1 E2
    exact ⟨out', h', by omega⟩

/-- C3 (counterexample to the claim as stated): on the empty search-result
sequence the Fetcher does not return an empty table — it fails, because
the DataFrame built from an empty record list has no url column to
iterate, so the url access raises a KeyError. -/
theorem claim_C3_counterexample :
    fetch_daily_stock_articles fetchEx bbca [] = none := rfl

/-- C3 (amended): for every nonempty search-result sequence whose entries
carry string urls the Fetcher succeeds with exactly one row per result, in
the same order, each row being the result augmented with full_text,
image_url, and a constant entity cell equal to the ticker; on the empty
sequence the Fetcher instead fails with a KeyError on the url column. -/
theorem claim_C3_row_shape :
    (∀ (fetchA : List Char → Except (List Char) (List Char × List (List Char)))
       (sc : List Char) (items : List Row) (out : DFrame),
      fetch_daily_stock_articles fetchA sc items = some out →
      out.rows.length = items.length ∧
      ∀ (i : Nat) (item : Row), items[i]? = some item →
        ∃ r ft iu, out.rows[i]? = some r ∧
          r = setVal (setVal (setVal item "full_text" ft) "image_url" iu)
            "entity" (Value.vStr sc) ∧
          getVal r "entity" = some (Value.vStr sc)) ∧
    (∀ (fetchA : List Char → Except (List Char) (List Char × List (List Char)))
       (sc : List Char),
      fetch_daily_stock_articles fetchA sc [] = none) ∧
    (∀ (fetchA : List Char → Except (List Char) (List Char × List (List Char)))
       (sc : List Char) (items : List Row),
      items ≠ [] →
      (∀ r ∈ items, ∃ u, getVal r "url" = some (Value.vStr u)) →
      ∃ out, fetch_daily_stock_articles fetchA sc items = some out ∧
        out.rows.length = items.length) := by
  refine ⟨?_, ?_, ?_⟩
  · intro fetchA sc items out h
    obtain ⟨urlVals, urls, E1, E2, hlurls, hlout, hout⟩ := fetch_eq_some h
    refine ⟨hlout, ?_⟩
    intro i item hitem
    have HU := (getCol_eq_some E1).2
    rw [ofRecords_rows] at HU
    obtain ⟨v, hvix, hveq⟩ := mapO_get? HU hitem
    obtain ⟨u, huix, hustr⟩ := mapO_get? E2 hvix
    obtain rfl := strUrl_eq_some hustr
    have hres : (urls.map (processUrl fetchA))[i]? =
        some (processUrl fetchA u) := by
      rw [List.getElem?_map, huix, Option.map_some']
    have hfts : ((urls.map (processUrl fetchA)).map (fun p => p.1))[i]? =
        some (processUrl fetchA u).1 := by
      rw [List.getElem?_map, hres, Option.map_some']
    have himgs : ((urls.map (processUrl fetchA)).map (fun p => p.2))[i]? =
        some (processUrl fetchA u).2 := by
      rw [List.getElem?_map, hres, Option.map_some']
    have hz1 := @zipWith_getElem?_of _ _ _
      (fun r v => setVal r "full_text" v) _ _ _ _ _ hitem hfts
    have hz2 := @zipWith_getElem?_of _ _ _
      (fun r v => setVal r "image_url" v) _ _ _ _ _ hz1 himgs
    have hrow : out.rows[i]? = some (setVal (setVal
        (setVal item "full_text" (processUrl fetchA u).1)
        "image_url" (processUrl fetchA u).2)
        "entity" (Value.vStr sc)) := by
      rw [hout, List.getElem?_map, hz2, Option.map_some']
    exact ⟨_, (processUrl fetchA u).1, (processUrl fetchA u).2, hrow, rfl,
      getVal_setVal_self _ _ _⟩
  · intro fetchA sc
    rfl
  · intro fetchA sc items hne hurl
    have hmem : "url" ∈ (DFrame.ofRecords items).cols := by
      cases items with
      | nil => exact absurd rfl hne
      | cons r0 rest =>
        obtain ⟨u, hu⟩ := hurl r0 (List.mem_cons_self r0 rest)
        show "url" ∈ r0.map Prod.fst
        exact getVal_mem_keys hu
    have hex : ∀ r ∈ items, ∃ v, getVal r "url" = some v := by
      intro r hr
      obtain ⟨u, hu⟩ := hurl r hr
      exact ⟨Value.vStr u, hu⟩
    obtain ⟨urlVals, hUV⟩ := mapO_total hex
    have h1 : getCol (DFrame.ofRecords items) "url" = some urlVals :=
      getCol_of hmem (by rw [ofRecords_rows]; exact hUV)
    have hex2 : ∀ v ∈ urlVals, ∃ u, strUrl v = some u := by
      intro v hv
      obtain ⟨r, hr, hgr⟩ := mapO_mem hUV v hv
      obtain ⟨u, hu⟩ := hurl r hr
      rw [hu] at hgr
      obtain rfl := Option.some_inj.mp hgr
      exact ⟨u, rfl⟩
    obtain ⟨urls, hUrls⟩ := mapO_total hex2
    exact fetch_succeeds h1 hUrls

/-! Fatal error conditions of the Cleaner. -/

/-- Whether an optional cell actually holds a publisher structure. -/
def isPubVal : Option Value → Bool
  | some (Value.vPub _) => true
  | _ => false

/-- A surviving row with a missing publisher structure, or with an
unparseable published-date string, makes the per-row pipeline fail. -/
theorem perRowClean_none_of_bad {parse : List Char → Option Timestamp}
    {r0 : Row} (hk : keepB r0 = true)
    (hbad : isPubVal (getVal r0 "publisher") = false ∨
      (getVal r0 "published_time" = none ∧
       ∃ s', getVal r0 "published date" = some (Value.vStr s') ∧
         parse s' = none)) :
    perRowClean parse r0 = none := by
  obtain ⟨s, hs, hmk⟩ := keepB_eq_true hk
  unfold perRowClean
  have h1 : rowMapCol "full_text" "full_text"
      (fun v => some (replaceStrVal '\n' pipePipe v)) r0 =
      some (setVal r0 "full_text"
        (replaceStrVal '\n' pipePipe (Value.vStr s))) := by
    unfold rowMapCol
    rw [hs, Option.some_bind', Option.some_bind']
  have h2 : rowMapCol "full_text" "full_text"
      (fun v => some (replaceStrVal '\r' pipePipe v))
      (setVal r0 "full_text" (replaceStrVal '\n' pipePipe (Value.vStr s))) =
      some (setVal
        (setVal r0 "full_text" (replaceStrVal '\n' pipePipe (Value.vStr s)))
        "full_text" (replaceStrVal '\r' pipePipe
          (replaceStrVal '\n' pipePipe (Value.vStr s)))) := by
    unfold rowMapCol
    rw [getVal_setVal_self, Option.some_bind', Option.some_bind']
  have h3 : rowMapCol "full_text" "full_text"
      (fun v => some (replaceStrVal '\\' [] v))
      (setVal
        (setVal r0 "full_text" (replaceStrVal '\n' pipePipe (Value.vStr s)))
        "full_text" (replaceStrVal '\r' pipePipe
          (replaceStrVal '\n' pipePipe (Value.vStr s)))) =
      some (setVal (setVal
        (setVal r0 "full_text" (replaceStrVal '\n' pipePipe (Value.vStr s)))
        "full_text" (replaceStrVal '\r' pipePipe
          (replaceStrVal '\n' pipePipe (Value.vStr s))))
        "full_text" (replaceStrVal '\\' [] (replaceStrVal '\r' pipePipe
          (replaceStrVal '\n' pipePipe (Value.vStr s))))) := by
    unfold rowMapCol
    rw [getVal_setVal_self, Option.some_bind', Option.some_bind']
  rw [h1, Option.some_bind', h2, Option.some_bind', h3, Option.some_bind']
  have hpubR3 : getVal (setVal (setVal
      (setVal r0 "full_text" (replaceStrVal '\n' pipePipe (Value.vStr s)))
      "full_text" (replaceStrVal '\r' pipePipe
        (replaceStrVal '\n' pipePipe (Value.vStr s))))
      "full_text" (replaceStrVal '\\' [] (replaceStrVal '\r' pipePipe
        (replaceStrVal '\n' pipePipe (Value.vStr s))))) "publisher" =
      getVal r0 "publisher" := by
    rw [getVal_setVal_ne _ _ (by decide), getVal_setVal_ne _ _ (by decide),
      getVal_setVal_ne _ _ (by decide)]
  have hptR3 : getVal (setVal (setVal
      (setVal r0 "full_text" (replaceStrVal '\n' pipePipe (Value.vStr s)))
      "full_text" (replaceStrVal '\r' pipePipe
        (replaceStrVal '\n' pipePipe (Value.vStr s))))
      "full_text" (replaceStrVal '\\' [] (replaceStrVal '\r' pipePipe
        (replaceStrVal '\n' pipePipe (Value.vStr s))))) "published_time" =
      getVal r0 "published_time" := by
    rw [getVal_setVal_ne _ _ (by decide), getVal_setVal_ne _ _ (by decide),
      getVal_setVal_ne _ _ (by decide)]
  have hpdR3 : getVal (setVal (setVal
      (setVal r0 "full_text" (replaceStrVal '\n' pipePipe (Value.vStr s)))
      "full_text" (replaceStrVal '\r' pipePipe
        (replaceStrVal '\n' pipePipe (Value.vStr s))))
      "full_text" (replaceStrVal '\\' [] (replaceStrVal '\r' pipePipe
        (replaceStrVal '\n' pipePipe (Value.vStr s))))) "published date" =
      getVal r0 "published date" := by
    rw [getVal_setVal_ne _ _ (by decide), getVal_setVal_ne _ _ (by decide),
      getVal_setVal_ne _ _ (by decide)]
  rcases hbad with hbadpub | ⟨hptnone, s', hpd, hparse⟩
  · have hpubfail : rowMapCol "publisher" "source_publisher" pubTitleVal
        (renameCol "published date" "published_time"
          (setVal (setVal (setVal r0 "full_text"
            (replaceStrVal '\n' pipePipe (Value.vStr s)))
            "full_text" (replaceStrVal '\r' pipePipe
              (replaceStrVal '\n' pipePipe (Value.vStr s))))
            "full_text" (replaceStrVal '\\' [] (replaceStrVal '\r' pipePipe
              (replaceStrVal '\n' pipePipe (Value.vStr s)))))) = none := by
      unfold rowMapCol
      rw [getVal_renameCol_ne _ (by decide) (by decide), hpubR3]
      cases hgp : getVal r0 "publisher" with
      | none => rfl
      | some v =>
        rw [Option.some_bind']
        cases v with
        | vPub p =>
          rw [hgp] at hbadpub
          simp [isPubVal] at hbadpub
        | vStr s2 => rfl
        | vTime t => rfl
        | vDate d => rfl
        | vNone => rfl
    rw [hpubfail]
    rfl
  · cases hps : rowMapCol "publisher" "source_publisher" pubTitleVal
        (renameCol "published date" "published_time"
          (setVal (setVal (setVal r0 "full_text"
            (replaceStrVal '\n' pipePipe (Value.vStr s)))
            "full_text" (replaceStrVal '\r' pipePipe
              (replaceStrVal '\n' pipePipe (Value.vStr s))))
            "full_text" (replaceStrVal '\\' [] (replaceStrVal '\r' pipePipe
              (replaceStrVal '\n' pipePipe (Value.vStr s)))))) with
    | none => rfl
    | some r5 =>
      rw [Option.some_bind']
      obtain ⟨vp, wp, hvp, hwp, hr5⟩ := rowMapCol_eq_some hps
      have hptnone3 : getVal (setVal (setVal (setVal r0 "full_text"
          (replaceStrVal '\n' pipePipe (Value.vStr s)))
          "full_text" (replaceStrVal '\r' pipePipe
            (replaceStrVal '\n' pipePipe (Value.vStr s))))
          "full_text" (replaceStrVal '\\' [] (replaceStrVal '\r' pipePipe
            (replaceStrVal '\n' pipePipe (Value.vStr s)))))
          "published_time" = none := by
        rw [hptR3]
        exact hptnone
      have hptR4 : getVal (renameCol "published date" "published_time"
          (setVal (setVal (setVal r0 "full_text"
            (replaceStrVal '\n' pipePipe (Value.vStr s)))
            "full_text" (replaceStrVal '\r' pipePipe
              (replaceStrVal '\n' pipePipe (Value.vStr s))))
            "full_text" (replaceStrVal '\\' [] (replaceStrVal '\r' pipePipe
              (replaceStrVal '\n' pipePipe (Value.vStr s))))))
          "published_time" = some (Value.vStr s') := by
        rw [getVal_renameCol_new _ hptnone3, hpdR3]
        exact hpd
      have hptR5 : getVal r5 "published_time" = some (Value.vStr s') := by
        rw [hr5, getVal_setVal_ne _ _ (by decide), hptR4]
      have htime : rowMapCol "published_time" "published_time"
          (toDatetimeVal parse) r5 = none := by
        unfold rowMapCol
        rw [hptR5, Option.some_bind']
        have hdt : toDatetimeVal parse (Value.vStr s') = none := by
          show (parse s').map (fun t => Value.vTime t) = none
          rw [hparse]
          rfl
        rw [hdt]
        rfl
      rw [htime]
      rfl

/-- C9: if any row surviving the failure filter has a missing publisher
structure, or an unparseable published-date string, the Cleaner raises
for the whole invocation and returns no table at all. -/
theorem claim_C9_fatal_errors (parse : List Char → Option Timestamp)
    (df : DFrame) (r0 : Row) (hmem : r0 ∈ df.rows) (hk : keepB r0 = true)
    (hbad : isPubVal (getVal r0 "publisher") = false ∨
      (getVal r0 "published_time" = none ∧
       ∃ s', getVal r0 "published date" = some (Value.vStr s') ∧
         parse s' = none)) :
    cleaning_fetched_articles parse df = none := by
  cases hcl : cleaning_fetched_articles parse df with
  | none => rfl
  | some out =>
    exfalso
    obtain ⟨hoc, hrows⟩ := cleaning_eq_some hcl
    have hr0f : r0 ∈ df.rows.filter keepB := List.mem_filter.mpr ⟨hmem, hk⟩
    obtain ⟨r', hr', hpr⟩ := mapO_forall_mem hrows r0 hr0f
    rw [perRowClean_none_of_bad hk hbad] at hpr
    cases hpr

/-! The Cleaner is not idempotent: its output shape lacks the publisher
column that the Cleaner itself requires. -/

theorem renameDF_pub_not_mem {d : DFrame} (h : "publisher" ∉ d.cols) :
    "publisher" ∉ (renameDF d "published date" "published_time").cols := by
  intro hmem
  obtain ⟨c, hc, hfc⟩ := List.mem_map.mp hmem
  by_cases hcp : c = "published date"
  · rw [if_pos hcp] at hfc
    exact absurd hfc (by decide)
  · rw [if_neg hcp] at hfc
    exact h (hfc ▸ hc)

theorem setCol_pub_not_mem {d d' : DFrame} {c : String} {vs : List Value}
    (hset : setCol d c vs = some d') (h : "publisher" ∉ d.cols)
    (hc : c ≠ "publisher") : "publisher" ∉ d'.cols := by
  obtain ⟨_, hcols, _⟩ := setCol_eq_some hset
  rw [hcols]
  by_cases hmem : c ∈ d.cols
  · rw [if_pos hmem]
    exact h
  · rw [if_neg hmem]
    intro hx
    rcases List.mem_append.mp hx with h1 | h2
    · exact h h1
    · exact hc (List.mem_singleton.mp h2).symm

/-- C6 (amended): the Cleaner is not idempotent — on any table whose
column index lacks the publisher column, as every cleaned-shaped table
does, the call fails (KeyError on line 97) instead of returning the table
unchanged. -/
theorem claim_C6_not_idempotent (parse : List Char → Option Timestamp)
    (df : DFrame) (h : "publisher" ∉ df.cols) :
    cleaning_fetched_articles parse df = none := by
  unfold cleaning_fetched_articles
  dsimp only
  split
  · rfl
  rename_i fts E1
  split
  · rfl
  rename_i mask E2
  split
  · rfl
  rename_i t1 E3
  split
  · rfl
  rename_i d2 E4
  split
  · rfl
  rename_i t2 E5
  split
  · rfl
  rename_i d3 E6
  split
  · rfl
  rename_i t3 E7
  split
  · rfl
  rename_i d4 E8
  have h1 : "publisher" ∉ (maskFilter df (mask.map (fun b => !b))).cols := h
  have h2 : "publisher" ∉ d2.cols := setCol_pub_not_mem E4 h1 (by decide)
  have h3 : "publisher" ∉ d3.cols := setCol_pub_not_mem E6 h2 (by decide)
  have h4 : "publisher" ∉ d4.cols := setCol_pub_not_mem E8 h3 (by decide)
  have h5 := renameDF_pub_not_mem h4
  rw [getCol_none h5]

/-- C6 (counterexample to the claim as stated): the concrete cleaned table
produced from the example raw table is already in cleaned shape — final
column order, no failure-marker rows, no stray control characters — yet
running the Cleaner on it returns no table at all rather than the table
unchanged. -/
theorem claim_C6_counterexample :
    outEx.cols = finalCols ∧
    (∀ r ∈ outEx.rows, keepB r = true) ∧
    cleaning_fetched_articles parseEx outEx = none := by
  refine ⟨rfl, by decide, by decide⟩

/-! Witnesses: each hypothesis-bearing claim theorem applied at the
concrete example inputs. -/

theorem claim_C1_row_count_witness :
    outEx.rows.length ≤ dfEx.rows.length ∧
    outEx.rows.length = dfEx.rows.length - dfEx.rows.countP hasMarkerRow ∧
    ∀ r ∈ outEx.rows, ∃ r0 ∈ dfEx.rows,
      (∃ s, getVal r0 "full_text" = some (Value.vStr s) ∧
        decide (failureMarker <:+: s) = false) ∧
      perRowClean parseEx r0 = some r :=
  claim_C1_row_count parseEx dfEx outEx (by decide)

theorem claim_C2_error_placeholder_witness :
    outFEx.rows.length = itemsEx.length ∧
    ∃ r, outFEx.rows[1]? = some r ∧
      getVal r "full_text" =
        some (Value.vStr (errMsg urlBad "timeout".data)) ∧
      getVal r "image_url" =
        some (Value.vStr (errMsg urlBad "timeout".data)) :=
  claim_C2_error_placeholder.1 fetchEx bbca itemsEx outFEx 1 itemF1 urlBad
    ("timeout".data) (by decide) (by decide) (by decide) rfl

theorem claim_C3_row_shape_witness :
    ∃ out, fetch_daily_stock_articles fetchEx bbca itemsEx = some out ∧
      out.rows.length = itemsEx.length :=
  claim_C3_row_shape.2.2 fetchEx bbca itemsEx (by decide) (by
    intro r hr
    rcases List.mem_cons.mp hr with rfl | hr2
    · exact ⟨urlGood, by decide⟩
    rcases List.mem_cons.mp hr2 with rfl | hr3
    · exact ⟨urlBad, by decide⟩
    · cases hr3)

theorem claim_C4_text_normalization_witness :
    '\n' ∉ "line1||line2||||".data ∧ '\r' ∉ "line1||line2||||".data ∧
    '\\' ∉ "line1||line2||||".data :=
  claim_C4_text_normalization.1 parseEx dfEx outEx (by decide) cleanedRowEx
    (by decide) ("line1||line2||||".data) (by decide)

theorem claim_C5_columns_witness :
    outEx.cols = ["entity", "source_publisher", "title", "full_text", "url",
      "published_time", "published_date", "image_url"] ∧
    ∀ r ∈ outEx.rows,
      r.map Prod.fst = ["entity", "source_publisher", "title", "full_text",
        "url", "published_time", "published_date", "image_url"] :=
  claim_C5_columns parseEx dfEx outEx (by decide)

theorem claim_C6_not_idempotent_witness :
    cleaning_fetched_articles parseEx outEx = none :=
  claim_C6_not_idempotent parseEx outEx (by decide)

theorem claim_C7_date_component_witness :
    ∃ t, getVal cleanedRowEx "published_time" = some (Value.vTime t) ∧
      getVal cleanedRowEx "published_date" = some (Value.vDate t.date) :=
  claim_C7_date_component parseEx dfEx outEx (by decide) cleanedRowEx
    (by decide)

theorem claim_C8_publisher_title_witness :
    ∃ r0 ∈ dfEx.rows, ∃ p,
      perRowClean parseEx r0 = some cleanedRowEx ∧
      getVal r0 "publisher" = some (Value.vPub p) ∧
      getVal cleanedRowEx "source_publisher" = some (Value.vStr p.title) :=
  claim_C8_publisher_title parseEx dfEx outEx (by decide) cleanedRowEx
    (by decide)

theorem claim_C9_fatal_errors_witness :
    cleaning_fetched_articles parseEx dfNoPub = none :=
  claim_C9_fatal_errors parseEx dfNoPub rowNoPub (by decide) (by decide)
    (Or.inl (by decide))

end StocksMonitoring
